import Mathlib

/-!
Formal model of `vedicastro/horary_chart.py`.

The module under verification resolves a horary number (1..249) to an
absolute sidereal zodiac degree via a static division table, and then
scans one calendar day in deci-second steps for the instant at which the
ascendant reaches that degree.

Arithmetic is modelled exactly: Python floats become rationals (ℚ), the
swisseph calendar conversions become exact Gregorian calendar arithmetic
on ℤ/ℚ, and the external ascendant computation (`swe.houses_ex`) is an
abstract function `ℚ → ℚ` from Julian day to ascendant degree.

Sections:
1. Gregorian calendar arithmetic (civil date ↔ day count), with both
   round-trip theorems.
2. The swisseph conversion interface consumed by the code
   (`utc_time_zone`, `utc_to_jd`, `jdut1_to_utc`), modelled from the
   spec since the library is an external collaborator.
3. `jd_to_datetime`, the ayanamsa table, the KP division-table resolver
   `get_horary_ascendant_degree`, and the scan `find_exact_ascendant_time`.
4. One theorem per specification claim, with witnesses.
-/

set_option maxHeartbeats 2000000
set_option maxRecDepth 10000

/-! ### Gregorian calendar arithmetic

Modelled from the spec: the Ephemeris Adapter's calendar conversions
(swisseph `swe_utc_to_jd` / `swe_jdut1_to_utc` / `swe_utc_time_zone`)
are external collaborators; §4.3 specifies a UT-based Julian Day scale
with `julianDayToCivil` the inverse of `civilToJulianDay`.  The civil ↔
day-count bijection below is the standard proleptic Gregorian calendar
(days counted from 1970-01-01). -/

/-- Nat-level year-of-era start offset, for decidable endpoint checks. -/
def fN (y : ℕ) : ℕ := 365 * y + y / 4 - y / 100

/-- Nat-level adjusted day count, for decidable endpoint checks. -/
def gN (x : ℕ) : ℕ := x + x / 36524 - x / 1460 - x / 146096

/-- Day-of-era at which year-of-era `y` starts. -/
def ff (y : ℤ) : ℤ := 365 * y + y / 4 - y / 100

/-- Adjusted day count whose quotient by 365 recovers the year-of-era. -/
def gg (x : ℤ) : ℤ := x - x / 1460 + x / 36524 - x / 146096

theorem fgN_low : ∀ y : ℕ, y < 400 → 365 * y ≤ gN (fN y) := by decide

theorem fgN_high : ∀ y : ℕ, y < 401 → 0 < y → gN (fN y - 1) ≤ 365 * y - 1 := by decide

theorem cast_f (n : ℕ) : ((fN n : ℕ) : ℤ) = ff (n : ℤ) := by
  unfold fN ff; omega

theorem cast_g (m : ℕ) : ((gN m : ℕ) : ℤ) = gg (m : ℤ) := by
  unfold gN gg; omega

theorem fg_low (y : ℤ) (h0 : 0 ≤ y) (h1 : y ≤ 399) : 365 * y ≤ gg (ff y) := by
  obtain ⟨n, rfl⟩ := Int.eq_ofNat_of_zero_le h0
  have hn : n < 400 := by omega
  have h := fgN_low n hn
  have h2 : (365 * (n : ℤ)) ≤ ((gN (fN n) : ℕ) : ℤ) := by exact_mod_cast h
  rw [cast_g (fN n), cast_f n] at h2
  exact h2

theorem fg_high (y : ℤ) (h0 : 1 ≤ y) (h1 : y ≤ 400) : gg (ff y - 1) ≤ 365 * y - 1 := by
  have h0' : (0 : ℤ) ≤ y := by omega
  obtain ⟨n, rfl⟩ := Int.eq_ofNat_of_zero_le h0'
  have hn : n < 401 := by omega
  have hp : 0 < n := by omega
  have h := fgN_high n hn hp
  have hfn : 365 ≤ fN n := by unfold fN; omega
  have h2 : ((gN (fN n - 1) : ℕ) : ℤ) ≤ 365 * (n : ℤ) - 1 := by
    have := Int.ofNat_le.mpr h
    omega
  rw [cast_g (fN n - 1)] at h2
  have hc1 : ((fN n - 1 : ℕ) : ℤ) = ((fN n : ℕ) : ℤ) - 1 := by omega
  rw [hc1, cast_f n] at h2
  exact h2

theorem gg_mono {a b : ℤ} (h0 : 0 ≤ a) (hab : a ≤ b) : gg a ≤ gg b := by
  unfold gg; omega

theorem ff_mono (a b : ℤ) (h : a ≤ b) : ff a ≤ ff b := by
  unfold ff; omega

theorem yoe_strict (doe : ℤ) (h0 : 0 ≤ doe) (h1 : doe < 146097)
    (h2 : gg doe / 365 ≤ 398) : doe < ff (gg doe / 365 + 1) := by
  set yoe := gg doe / 365 with hyoe
  by_contra hc
  push_neg at hc
  have hgg : 0 ≤ gg doe := by unfold gg; omega
  have hd1 := fg_low (yoe + 1) (by omega) (by omega)
  have hffpos : 0 ≤ ff (yoe + 1) := by unfold ff; omega
  have hm := gg_mono hffpos hc
  omega

theorem yoe_bracket (doe : ℤ) (h0 : 0 ≤ doe) (h1 : doe < 146097) :
    0 ≤ gg doe / 365 ∧ gg doe / 365 ≤ 399 ∧
    ff (gg doe / 365) ≤ doe ∧ doe - ff (gg doe / 365) ≤ 365 := by
  set yoe := gg doe / 365 with hyoe
  have hgg : 0 ≤ gg doe ∧ gg doe ≤ 365 * 399 + 364 := by unfold gg; omega
  have hy : 0 ≤ yoe ∧ yoe ≤ 399 := by omega
  refine ⟨hy.1, hy.2, ?_, ?_⟩
  · by_contra hc
    push_neg at hc
    have hyoe1 : 1 ≤ yoe := by
      by_contra hy0
      have hz : yoe = 0 := by omega
      rw [hz] at hc
      unfold ff at hc
      omega
    have hd2 := fg_high yoe (by omega) (by omega)
    have hffm1 : doe ≤ ff yoe - 1 := by omega
    have hm := gg_mono h0 hffm1
    omega
  · by_contra hc
    push_neg at hc
    rcases le_or_lt yoe 398 with hle | hgt
    · have hd1 := fg_low (yoe + 1) (by omega) (by omega)
      have hgap : ff (yoe + 1) ≤ ff yoe + 366 := by unfold ff; omega
      have hffpos : 0 ≤ ff (yoe + 1) := by unfold ff; omega
      have hm := gg_mono hffpos (show ff (yoe + 1) ≤ doe by omega)
      have hdef : gg doe ≤ 365 * yoe + 364 := by omega
      omega
    · have h399 : yoe = 399 := by omega
      have hval : ff yoe = 145731 := by rw [h399]; decide
      omega

/-- Gregorian leap-year predicate. -/
def isLeap (y : ℤ) : Prop := (y % 4 = 0 ∧ y % 100 ≠ 0) ∨ y % 400 = 0

instance (y : ℤ) : Decidable (isLeap y) := by unfold isLeap; infer_instance

/-- Length of a Gregorian month. -/
def daysInMonth (y m : ℤ) : ℤ :=
  if m = 2 then (if isLeap y then 29 else 28)
  else if m = 4 ∨ m = 6 ∨ m = 9 ∨ m = 11 then 30
  else 31

/-- Day count of a civil date (1970-01-01 is day 0). -/
def daysFromCivil (y m d : ℤ) : ℤ :=
  let y' := if m ≤ 2 then y - 1 else y
  let era := y' / 400
  let yoe := y' - era * 400
  let mp := (m + 9) % 12
  let doy := (153 * mp + 2) / 5 + d - 1
  let doe := yoe * 365 + yoe / 4 - yoe / 100 + doy
  era * 146097 + doe - 719468

/-- Civil date of a day count (inverse of `daysFromCivil`). -/
def civilFromDays (z : ℤ) : ℤ × ℤ × ℤ :=
  let z' := z + 719468
  let era := z' / 146097
  let doe := z' - era * 146097
  let yoe := (doe - doe / 1460 + doe / 36524 - doe / 146096) / 365
  let y := yoe + era * 400
  let doy := doe - (365 * yoe + yoe / 4 - yoe / 100)
  let mp := (5 * doy + 2) / 153
  let d := doy - (153 * mp + 2) / 5 + 1
  let m := if mp < 10 then mp + 3 else mp - 9
  (if m ≤ 2 then y + 1 else y, m, d)

theorem daysFromCivil_civilFromDays (n : ℤ) :
    daysFromCivil (civilFromDays n).1 (civilFromDays n).2.1 (civilFromDays n).2.2 = n := by
  unfold civilFromDays daysFromCivil
  simp only []
  set z' := n + 719468 with hz
  set era := z' / 146097 with hera
  set doe := z' - era * 146097 with hdoe
  have h0 : 0 ≤ doe := by omega
  have h1 : doe < 146097 := by omega
  obtain ⟨hb1, hb2, hb3, hb4⟩ := yoe_bracket doe h0 h1
  set yoe := (doe - doe / 1460 + doe / 36524 - doe / 146096) / 365 with hyoe
  have e1 : gg doe = doe - doe / 1460 + doe / 36524 - doe / 146096 := rfl
  have h365 : gg doe / 365 = yoe := by rw [e1, ← hyoe]
  rw [h365] at hb1 hb2 hb3 hb4
  unfold ff at hb3 hb4
  set doy := doe - (365 * yoe + yoe / 4 - yoe / 100) with hdoy
  set mp := (5 * doy + 2) / 153 with hmp
  set d := doy - (153 * mp + 2) / 5 + 1 with hd
  have hmpb : 0 ≤ mp ∧ mp ≤ 11 := by omega
  have hq1 : (mp + 3 + 9) % 12 = mp := by omega
  have hq2 : (mp - 9 + 9) % 12 = mp := by omega
  have hA : (yoe + era * 400) / 400 = era := by omega
  have hB : yoe + era * 400 - era * 400 = yoe := by ring
  split_ifs <;> simp only [hq1, hq2, add_sub_cancel_right] <;> rw [hA, hB] <;> omega

theorem civilFromDays_core (y m d y' era yoe mp doy doe : ℤ)
    (hy' : y' = if m ≤ 2 then y - 1 else y)
    (hera : era = y' / 400)
    (hyoe : yoe = y' - era * 400)
    (hmp : mp = (m + 9) % 12)
    (hdoy : doy = (153 * mp + 2) / 5 + d - 1)
    (hdoe : doe = yoe * 365 + yoe / 4 - yoe / 100 + doy)
    (hm1 : 1 ≤ m) (hm2 : m ≤ 12) (hd1 : 1 ≤ d) (hd2 : d ≤ daysInMonth y m) :
    civilFromDays (era * 146097 + doe - 719468) = (y, m, d) := by
  have hv : d ≤ 31 ∧ (m = 2 → d ≤ 29) ∧
      (m = 2 → d = 29 → (y % 4 = 0 ∧ (y % 100 ≠ 0 ∨ y % 400 = 0))) ∧
      ((m = 4 ∨ m = 6 ∨ m = 9 ∨ m = 11) → d ≤ 30) := by
    unfold daysInMonth at hd2
    split_ifs at hd2 with h1 h2 h3
    · unfold isLeap at h2
      refine ⟨by omega, fun _ => by omega, fun _ _ => ?_, fun hx => by omega⟩
      rcases h2 with ⟨ha, hb⟩ | hc
      · exact ⟨ha, Or.inl hb⟩
      · exact ⟨by omega, Or.inr hc⟩
    · exact ⟨by omega, fun _ => by omega, fun _ h29 => by omega, fun hx => by omega⟩
    · exact ⟨by omega, fun he => absurd he h1, fun he _ => absurd he h1, fun _ => by omega⟩
    · exact ⟨by omega, fun he => absurd he h1, fun he _ => absurd he h1, fun hx => absurd hx h3⟩
  obtain ⟨hv1, hv2, hv3, hv4⟩ := hv
  have hyrel : (m ≤ 2 ∧ y' = y - 1) ∨ (3 ≤ m ∧ y' = y) := by
    rcases le_or_lt m 2 with h | h
    · left; exact ⟨h, by rw [hy', if_pos h]⟩
    · right; exact ⟨by omega, by rw [hy', if_neg (by omega)]⟩
  clear hy'
  unfold civilFromDays
  simp only []
  rw [show era * 146097 + doe - 719468 + 719468 = era * 146097 + doe from by ring]
  rcases hyrel with ⟨hmc, hyeq⟩ | ⟨hmc, hyeq⟩ <;>
  · have hyoeb : 0 ≤ yoe ∧ yoe ≤ 399 := by omega
    have hmpb : 0 ≤ mp ∧ mp ≤ 11 := by omega
    have hdoyb : doy ≤ 364 ∨
        (doy = 365 ∧ (yoe + 1) % 4 = 0 ∧ ((yoe + 1) % 100 ≠ 0 ∨ (yoe + 1) % 400 = 0)) := by
      rcases eq_or_ne m 2 with he | hne
      · have h29 := hv2 he
        rcases eq_or_ne d 29 with he29 | hne29
        · obtain ⟨hl4, hlor⟩ := hv3 he he29
          refine Or.inr ⟨by omega, by omega, ?_⟩
          rcases hlor with ha | hb
          · exact Or.inl (by omega)
          · exact Or.inr (by omega)
        · exact Or.inl (by omega)
      · exact Or.inl (by omega)
    have hdlen : d ≤ (153 * (mp + 1) + 2) / 5 - (153 * mp + 2) / 5 ∨ (mp = 11 ∧ d ≤ 29) := by
      interval_cases m <;>
        first
          | exact Or.inr ⟨by omega, hv2 rfl⟩
          | exact Or.inl (by omega)
          | (have h30 := hv4 (by simp); exact Or.inl (by omega))
    have hdoy0 : 0 ≤ doy := by omega
    have hmprec : 153 * mp ≤ 5 * doy + 2 ∧ 5 * doy + 2 ≤ 153 * mp + 152 := by
      rcases hdlen with h | ⟨h11, h29⟩ <;> omega
    have hdoe0 : 0 ≤ doe ∧ doe < 146097 := by
      rcases hdoyb with h | ⟨h, _⟩ <;> omega
    have hE : (era * 146097 + doe) / 146097 = era := by omega
    rw [hE, show era * 146097 + doe - era * 146097 = doe from by ring]
    obtain ⟨hb1, hb2, hb3, hb4⟩ := yoe_bracket doe hdoe0.1 hdoe0.2
    obtain ⟨Y2, hY2⟩ : ∃ t, (doe - doe / 1460 + doe / 36524 - doe / 146096) / 365 = t :=
      ⟨_, rfl⟩
    rw [hY2]
    have e1 : gg doe = doe - doe / 1460 + doe / 36524 - doe / 146096 := rfl
    have hln : gg doe / 365 = Y2 := by rw [e1]; exact hY2
    rw [hln] at hb1 hb2 hb3 hb4
    unfold ff at hb3 hb4
    have hun : Y2 = yoe := by
      rcases lt_trichotomy Y2 yoe with hlt | heq | hgt
      · exfalso
        have hstr := yoe_strict doe hdoe0.1 hdoe0.2 (by omega)
        rw [hln] at hstr
        have hmo := ff_mono (Y2 + 1) yoe (by omega)
        unfold ff at hstr hmo
        omega
      · exact heq
      · exfalso
        have hmo := ff_mono (yoe + 1) Y2 (by omega)
        unfold ff at hmo
        have hcomb : 365 * (yoe + 1) + (yoe + 1) / 4 - (yoe + 1) / 100 ≤ doe :=
          le_trans hmo hb3
        rcases hdoyb with hle | ⟨h365', h4x, hor⟩
        · have h4 : (yoe + 1) % 4 = 0 ∧ (yoe + 1) / 4 = yoe / 4 + 1 ∨
              (yoe + 1) % 4 ≠ 0 ∧ (yoe + 1) / 4 = yoe / 4 := by
            rcases eq_or_ne ((yoe + 1) % 4) 0 with h | h
            · exact Or.inl ⟨h, by omega⟩
            · exact Or.inr ⟨h, by omega⟩
          have h100 : (yoe + 1) % 100 = 0 ∧ (yoe + 1) / 100 = yoe / 100 + 1 ∨
              (yoe + 1) % 100 ≠ 0 ∧ (yoe + 1) / 100 = yoe / 100 := by
            rcases eq_or_ne ((yoe + 1) % 100) 0 with h | h
            · exact Or.inl ⟨h, by omega⟩
            · exact Or.inr ⟨h, by omega⟩
          rcases h4 with ⟨h4a, h4b⟩ | ⟨h4a, h4b⟩ <;>
            rcases h100 with ⟨hca, hcb⟩ | ⟨hca, hcb⟩ <;> omega
        · rcases hor with hno100 | h400
          · omega
          · omega
    subst hun
    have hdoy2 : doe - (365 * Y2 + Y2 / 4 - Y2 / 100) = doy := by omega
    rw [hdoy2]
    have hmp2 : (5 * doy + 2) / 153 = mp := by omega
    rw [hmp2]
    have hmrec : (if mp < 10 then mp + 3 else mp - 9) = m := by
      clear * - hmp hm1 hm2
      split_ifs <;> omega
    rw [hmrec]
    have hyrec : (if m ≤ 2 then Y2 + era * 400 + 1 else Y2 + era * 400) = y := by
      clear * - hyoe hyeq hmc
      split_ifs <;> omega
    rw [hyrec]
    simp only [Prod.mk.injEq, true_and, and_true, eq_self_iff_true]
    clear * - hdoy
    omega

theorem civilFromDays_daysFromCivil (y m d : ℤ) (hm1 : 1 ≤ m) (hm2 : m ≤ 12)
    (hd1 : 1 ≤ d) (hd2 : d ≤ daysInMonth y m) :
    civilFromDays (daysFromCivil y m d) = (y, m, d) := by
  have h := civilFromDays_core y m d _ _ _ _ _ _ rfl rfl rfl rfl rfl rfl hm1 hm2 hd1 hd2
  unfold daysFromCivil
  simp only []
  exact h

/-! ### Civil time with seconds, and the swisseph conversion interface -/

/-- Civil calendar time: date fields plus a fractional second. -/
structure CivilTime where
  year : ℤ
  month : ℤ
  day : ℤ
  hour : ℤ
  minute : ℤ
  second : ℚ
deriving DecidableEq, Repr

/-- Total seconds since the epoch 1970-01-01T00:00:00. -/
def secondsFromCivil (c : CivilTime) : ℚ :=
  86400 * ((daysFromCivil c.year c.month c.day : ℤ) : ℚ) + 3600 * (c.hour : ℚ) +
    60 * (c.minute : ℚ) + c.second

/-- Civil time of a total-second count (inverse of `secondsFromCivil`). -/
def civilFromSeconds (t : ℚ) : CivilTime :=
  let D : ℤ := ⌊t / 86400⌋
  let r : ℚ := t - 86400 * (D : ℚ)
  let hh : ℤ := ⌊r / 3600⌋
  let r2 : ℚ := r - 3600 * (hh : ℚ)
  let mi : ℤ := ⌊r2 / 60⌋
  ⟨(civilFromDays D).1, (civilFromDays D).2.1, (civilFromDays D).2.2, hh, mi,
    r2 - 60 * (mi : ℚ)⟩

/-- Validity of a civil time: in-range month, day, hour, minute, second. -/
def ValidCivil (c : CivilTime) : Prop :=
  1 ≤ c.month ∧ c.month ≤ 12 ∧ 1 ≤ c.day ∧ c.day ≤ daysInMonth c.year c.month ∧
    0 ≤ c.hour ∧ c.hour < 24 ∧ 0 ≤ c.minute ∧ c.minute < 60 ∧
    0 ≤ c.second ∧ c.second < 60

instance (c : CivilTime) : Decidable (ValidCivil c) := by unfold ValidCivil; infer_instance

theorem floor_mul_add (c : ℚ) (hc : 0 < c) (N : ℤ) (u : ℚ) (h0 : 0 ≤ u) (h1 : u < c) :
    ⌊(c * (N : ℚ) + u) / c⌋ = N := by
  have hne : c ≠ 0 := ne_of_gt hc
  have hdiv : (c * (N : ℚ) + u) / c = (N : ℚ) + u / c := by
    field_simp
    ring
  rw [hdiv, Int.floor_int_add]
  have hz : ⌊u / c⌋ = 0 := by
    rw [Int.floor_eq_zero_iff]
    constructor
    · exact div_nonneg h0 (le_of_lt hc)
    · exact (div_lt_one hc).mpr h1
  omega

theorem secondsFromCivil_civilFromSeconds (t : ℚ) :
    secondsFromCivil (civilFromSeconds t) = t := by
  unfold secondsFromCivil civilFromSeconds
  simp only []
  rw [daysFromCivil_civilFromDays]
  ring

theorem civilFromSeconds_secondsFromCivil (c : CivilTime) (h : ValidCivil c) :
    civilFromSeconds (secondsFromCivil c) = c := by
  obtain ⟨y, m, d, hh, mi, s⟩ := c
  unfold ValidCivil at h
  dsimp only at h
  obtain ⟨h1, h2, h3, h4, h5, h6, h7, h8, h9, h10⟩ := h
  have chh : (0 : ℚ) ≤ (hh : ℚ) ∧ (hh : ℚ) ≤ 23 :=
    ⟨by exact_mod_cast h5, by exact_mod_cast (show hh ≤ 23 by omega)⟩
  have cmi : (0 : ℚ) ≤ (mi : ℚ) ∧ (mi : ℚ) ≤ 59 :=
    ⟨by exact_mod_cast h7, by exact_mod_cast (show mi ≤ 59 by omega)⟩
  unfold civilFromSeconds secondsFromCivil
  dsimp only
  have hshape : 86400 * ((daysFromCivil y m d : ℤ) : ℚ) + 3600 * (hh : ℚ) +
      60 * (mi : ℚ) + s =
      86400 * ((daysFromCivil y m d : ℤ) : ℚ) + (3600 * (hh : ℚ) + 60 * (mi : ℚ) + s) := by
    ring
  rw [hshape]
  have hD : ⌊(86400 * ((daysFromCivil y m d : ℤ) : ℚ) +
      (3600 * (hh : ℚ) + 60 * (mi : ℚ) + s)) / 86400⌋ = daysFromCivil y m d := by
    apply floor_mul_add 86400 (by norm_num)
    · linarith [chh.1, cmi.1, h9]
    · linarith [chh.2, cmi.2, h10]
  rw [hD]
  have hr : 86400 * ((daysFromCivil y m d : ℤ) : ℚ) +
      (3600 * (hh : ℚ) + 60 * (mi : ℚ) + s) -
      86400 * ((daysFromCivil y m d : ℤ) : ℚ) = 3600 * (hh : ℚ) + (60 * (mi : ℚ) + s) := by
    ring
  rw [hr]
  have hH : ⌊(3600 * (hh : ℚ) + (60 * (mi : ℚ) + s)) / 3600⌋ = hh := by
    apply floor_mul_add 3600 (by norm_num)
    · linarith [cmi.1, h9]
    · linarith [cmi.2, h10]
  rw [hH]
  have hr2 : 3600 * (hh : ℚ) + (60 * (mi : ℚ) + s) - 3600 * (hh : ℚ) =
      60 * (mi : ℚ) + s := by
    ring
  rw [hr2]
  have hM : ⌊(60 * (mi : ℚ) + s) / 60⌋ = mi := by
    apply floor_mul_add 60 (by norm_num)
    · exact h9
    · exact h10
  rw [hM]
  rw [civilFromDays_daysFromCivil y m d h1 h2 h3 h4]
  simp only [CivilTime.mk.injEq, eq_self_iff_true, true_and, and_true]
  ring

/-! ### The swisseph conversion interface consumed by the code -/

/-- Modelled from the spec: swisseph `swe_utc_time_zone` transforms a civil
time by subtracting the timezone offset in hours (local → UT for a positive
offset).  The repository calls it with `offset = utc_offset` (line 78) and
with `offset = -tz_offset` (line 30). -/
def swe_utc_time_zone (c : CivilTime) (offset : ℚ) : CivilTime :=
  civilFromSeconds (secondsFromCivil c - offset * 3600)

/-- Modelled from the spec (§4.3): swisseph `swe_utc_to_jd`'s Julian-day
output, on the UT-based scale the spec fixes (1970-01-01T00:00 UT is
JD 2440587.5).  `find_exact_ascendant_time` line 79 uses this value as
`jd_start`. -/
def swe_utc_to_jd (c : CivilTime) : ℚ :=
  secondsFromCivil c / 86400 + 2440587.5

/-- Modelled from the spec (§4.3): swisseph `swe_jdut1_to_utc`, the
inverse conversion from the UT-based Julian day back to civil time. -/
def swe_jdut1_to_utc (jd : ℚ) : CivilTime :=
  civilFromSeconds ((jd - 2440587.5) * 86400)

theorem jdut1_utc_to_jd (c : CivilTime) :
    swe_jdut1_to_utc (swe_utc_to_jd c) = civilFromSeconds (secondsFromCivil c) := by
  unfold swe_jdut1_to_utc swe_utc_to_jd
  congr 1
  ring

/-- Python `datetime` value as constructed by `jd_to_datetime`: integral
fields, with the fractional second split into second and microsecond. -/
structure PyDateTime where
  year : ℤ
  month : ℤ
  day : ℤ
  hour : ℤ
  minute : ℤ
  second : ℤ
  microsecond : ℤ
deriving DecidableEq, Repr

/-- Mirrors `datetime(y, mo, d, h, mi, int(seconds), int(seconds % 1 * 1_000_000))`
from `jd_to_datetime` (lines 32-33); `int` truncates the nonnegative second. -/
def pyDatetimeOf (c : CivilTime) : PyDateTime :=
  ⟨c.year, c.month, c.day, c.hour, c.minute, ⌊c.second⌋,
    ⌊(c.second - (⌊c.second⌋ : ℚ)) * 1000000⌋⟩

/-- Model of `jd_to_datetime` (lines 27-33): convert the Julian day to UTC,
then to local time via `swe.utc_time_zone(*utc, offset = -tz_offset)`, and
build the `datetime`. -/
def jd_to_datetime (jdt : ℚ) (tz_offset : ℚ) : PyDateTime :=
  pyDatetimeOf (swe_utc_time_zone (swe_jdut1_to_utc jdt) (-tz_offset))

/-! ### Ayanamsa table (lines 9-11) -/

/-- The seven sidereal modes the module's `SWE_AYANAMAS` dict can select. -/
inductive SidMode where
  | krishnamurti
  | krishnamurtiVP291
  | lahiri1940
  | lahiriVP285
  | lahiriIcrc
  | raman
  | yukteshwar
deriving DecidableEq, Repr

/-- Model of `SWE_AYANAMAS.get(ayanamsa)` (lines 9-11, 77): a dictionary
lookup returning `none` for unrecognized names. -/
def SWE_AYANAMAS (s : String) : Option SidMode :=
  if s = "Krishnamurti" then some .krishnamurti
  else if s = "Krishnamurti_New" then some .krishnamurtiVP291
  else if s = "Lahiri_1940" then some .lahiri1940
  else if s = "Lahiri_VP285" then some .lahiriVP285
  else if s = "Lahiri_ICRC" then some .lahiriIcrc
  else if s = "Raman" then some .raman
  else if s = "Yukteshwar" then some .yukteshwar
  else none

/-- Error raised before any ephemeris computation: `swe.set_sid_mode(None)`
(line 77) rejects the `None` produced by a failed dictionary lookup. -/
inductive SweError where
  | invalidSidMode
deriving DecidableEq, Repr

/-! ### KP division table and resolver (lines 13-56)

Modelled from the spec: the CSV asset `data/KP_SL_Divisions.csv` and the
loader `utils.dms_to_decdeg` are not part of the provided source; §3
specifies a 249-row table of entries with a sign and from/to angles within
the sign (0-30 decimal degrees, pre-converted from DMS text). -/

/-- The twelve zodiac sign names appearing in the `Sign` column. -/
inductive SignName where
  | aries | taurus | gemini | cancer | leo | virgo
  | libra | scorpio | sagittarius | capricorn | aquarius | pisces
deriving DecidableEq, Repr

/-- The `sign_order` dict of `get_horary_ascendant_degree` (lines 44-47). -/
def sign_order (s : SignName) : ℚ :=
  match s with
  | .aries => 0
  | .taurus => 30
  | .gemini => 60
  | .cancer => 90
  | .leo => 120
  | .virgo => 150
  | .libra => 180
  | .scorpio => 210
  | .sagittarius => 240
  | .capricorn => 270
  | .aquarius => 300
  | .pisces => 330

/-- One row of the division table: sign plus decimal from/to angles
(`From_DecDeg` / `To_DecDeg`, produced by `dms_to_decdeg` at load). -/
structure DivisionEntry where
  sign : SignName
  fromDecDeg : ℚ
  toDecDeg : ℚ
deriving DecidableEq, Repr

/-- The loaded `KP_SL_DMS_DATA` table: 249 rows indexed 1..249 in file
order (`SL_Div_Nr`). -/
def KPTable : Type := { l : List DivisionEntry // l.length = 249 }

/-- Spec §3 invariant on a row: angles within the sign, from before to. -/
def ValidEntry (e : DivisionEntry) : Prop :=
  0 ≤ e.fromDecDeg ∧ e.fromDecDeg < e.toDecDeg ∧ e.toDecDeg ≤ 30

instance (e : DivisionEntry) : Decidable (ValidEntry e) := by
  unfold ValidEntry; infer_instance

/-- Spec §3 invariant on the table. -/
def ValidTable (t : KPTable) : Prop := ∀ e ∈ t.val, ValidEntry e

instance (t : KPTable) : Decidable (ValidTable t) := by
  unfold ValidTable; infer_instance

/-- Successful resolver payload: the row data plus the computed
`ZodiacDegreeLocation`. -/
structure HoraryData where
  sign : SignName
  fromDecDeg : ℚ
  zodiacDegreeLocation : ℚ
deriving DecidableEq, Repr

/-- The resolver's conflated result channel: either row data or the
out-of-range message string (lines 54-56). -/
inductive HoraryResult where
  | ok : HoraryData → HoraryResult
  | err : String → HoraryResult
deriving DecidableEq, Repr

/-- Model of `get_horary_ascendant_degree` (lines 35-56): for a number in
[1,249] look up the row with `SL_Div_Nr = horary_number`, add the sign's
start degree to `From_DecDeg`; otherwise return the diagnostic string. -/
def get_horary_ascendant_degree (table : KPTable) (horary_number : ℤ) : HoraryResult :=
  if h : 1 ≤ horary_number ∧ horary_number ≤ 249 then
    let e := table.val.get ⟨(horary_number - 1).toNat, by rw [table.property]; omega⟩
    .ok ⟨e.sign, e.fromDecDeg, sign_order e.sign + e.fromDecDeg⟩
  else
    .err "SL Div Nr. out of range. Please provide a number between 1 and 249."

/-! ### The ascendant time search (lines 59-93) -/

/-- The loop increment: `1.0 / (24 * 60 * 60 * 10)` days (line 90). -/
def STEP : ℚ := 1 / 864000

/-- The match tolerance `0.0001` degrees (line 87). -/
def TOL : ℚ := 1 / 10000

/-- The k-th candidate instant of the scan: `jd_start` plus k deci-second
steps (exact-arithmetic value of the accumulated `current_time`). -/
def instantAt (start : ℚ) (k : ℕ) : ℚ := start + k * STEP

/-- The line-87 test at the k-th candidate instant:
`abs(asc_lon_deg - horary_asc_deg) < 0.0001`. -/
def matchAt (asc : ℚ → ℚ) (target start : ℚ) (k : ℕ) : Prop :=
  |asc (instantAt start k) - target| < TOL

instance (asc : ℚ → ℚ) (target start : ℚ) (k : ℕ) :
    Decidable (matchAt asc target start k) := by
  unfold matchAt; infer_instance

/-- The `while current_time <= jd_end` loop (lines 82-90), with the state
indexed by the step count `k` and a structural fuel (the fuel never runs
out when it exceeds the remaining iteration bound; see `scanGo_fuel`).
Returns the index of the first matching instant, or `none` on exhaustion. -/
def scanGo (asc : ℚ → ℚ) (target start : ℚ) : ℕ → ℕ → Option ℕ
  | 0, _ => none
  | fuel + 1, k =>
    if instantAt start k ≤ start + 1 then
      if |asc (instantAt start k) - target| < TOL then some k
      else scanGo asc target start fuel (k + 1)
    else none

/-- Number of loop-body executions of the same loop. -/
def countGo (asc : ℚ → ℚ) (target start : ℚ) : ℕ → ℕ → ℕ
  | 0, _ => 0
  | fuel + 1, k =>
    if instantAt start k ≤ start + 1 then
      if |asc (instantAt start k) - target| < TOL then 1
      else 1 + countGo asc target start fuel (k + 1)
    else 0

/-- Model of lines 78-79: `jd_start` computed from local midnight of the
given civil date and the UTC offset. -/
def startJD (year month day : ℤ) (utc_offset : ℚ) : ℚ :=
  swe_utc_to_jd (swe_utc_time_zone ⟨year, month, day, 0, 0, 0⟩ utc_offset)

/-- Model of `find_exact_ascendant_time` (lines 59-93).  The external
ascendant computation `swe.houses_ex(t, lat, lon, b'P', FLG_SIDEREAL)`
(cusp of house 1, for the configured location and sidereal mode) is
abstracted as `asc : ℚ → ℚ`.  An unrecognized ayanamsa makes
`swe.set_sid_mode(SWE_AYANAMAS.get(ayanamsa))` fail on `None` before any
ephemeris computation; that is the `.error` branch. -/
def find_exact_ascendant_time (asc : ℚ → ℚ) (year month day : ℤ) (utc_offset : ℚ)
    (horary_asc_deg : ℚ) (ayanamsa : String) : Except SweError (Option PyDateTime) :=
  match SWE_AYANAMAS ayanamsa with
  | none => .error .invalidSidMode
  | some _ =>
    match scanGo asc horary_asc_deg (startJD year month day utc_offset) 864002 0 with
    | some k =>
      .ok (some (jd_to_datetime (instantAt (startJD year month day utc_offset) k) utc_offset))
    | none => .ok none

theorem instantAt_le_iff (start : ℚ) (k : ℕ) :
    instantAt start k ≤ start + 1 ↔ k ≤ 864000 := by
  unfold instantAt STEP
  rw [add_le_add_iff_left]
  rw [mul_one_div, div_le_one (by norm_num : (0:ℚ) < 864000)]
  exact_mod_cast Iff.rfl

theorem instantAt_zero (start : ℚ) : instantAt start 0 = start := by
  unfold instantAt
  push_cast
  ring

theorem instantAt_ge (start : ℚ) (k : ℕ) : start ≤ instantAt start k := by
  unfold instantAt STEP
  have : (0:ℚ) ≤ (k : ℚ) * (1 / 864000) := by positivity
  linarith

theorem instantAt_end (start : ℚ) : instantAt start 864000 = start + 1 := by
  unfold instantAt STEP
  norm_num

theorem scanGo_some_iff (asc : ℚ → ℚ) (target start : ℚ) :
    ∀ fuel k j, 864001 - k < fuel →
      (scanGo asc target start fuel k = some j ↔
        k ≤ j ∧ j ≤ 864000 ∧ matchAt asc target start j ∧
          ∀ i, k ≤ i → i < j → ¬ matchAt asc target start i) := by
  intro fuel
  induction fuel with
  | zero => intro k j hf; exact absurd hf (Nat.not_lt_zero _)
  | succ fuel ih =>
    intro k j hf
    rw [scanGo]
    split_ifs with hg hm
    · rw [instantAt_le_iff] at hg
      constructor
      · intro hsome
        have hkj : k = j := by exact Option.some_injective _ hsome
        subst hkj
        exact ⟨le_rfl, hg, hm, fun i h1 h2 => absurd (lt_of_le_of_lt h1 h2) (lt_irrefl _)⟩
      · rintro ⟨h1, h2, h3, h4⟩
        rcases eq_or_lt_of_le h1 with he | hlt
        · rw [he]
        · exact absurd hm (h4 k le_rfl hlt)
    · rw [instantAt_le_iff] at hg
      rw [ih (k + 1) j (by omega)]
      constructor
      · rintro ⟨h1, h2, h3, h4⟩
        refine ⟨by omega, h2, h3, fun i hi1 hi2 => ?_⟩
        rcases eq_or_lt_of_le hi1 with he | hlt
        · rw [← he]; exact hm
        · exact h4 i hlt hi2
      · rintro ⟨h1, h2, h3, h4⟩
        have hkj : k ≠ j := by
          intro he
          rw [← he] at h3
          exact hm h3
        exact ⟨by omega, h2, h3, fun i hi1 hi2 => h4 i (by omega) hi2⟩
    · rw [instantAt_le_iff] at hg
      constructor
      · intro hsome
        exact absurd hsome (by simp)
      · rintro ⟨h1, h2, h3, h4⟩
        omega

theorem scanGo_none_iff (asc : ℚ → ℚ) (target start : ℚ) :
    ∀ fuel k, 864001 - k < fuel →
      (scanGo asc target start fuel k = none ↔
        ∀ j, k ≤ j → j ≤ 864000 → ¬ matchAt asc target start j) := by
  intro fuel
  induction fuel with
  | zero => intro k hf; exact absurd hf (Nat.not_lt_zero _)
  | succ fuel ih =>
    intro k hf
    rw [scanGo]
    split_ifs with hg hm
    · rw [instantAt_le_iff] at hg
      constructor
      · intro hsome; exact absurd hsome (by simp)
      · intro hall; exact absurd hm (hall k le_rfl hg)
    · rw [instantAt_le_iff] at hg
      rw [ih (k + 1) (by omega)]
      constructor
      · intro hall j hj1 hj2
        rcases eq_or_lt_of_le hj1 with he | hlt
        · rw [← he]; exact hm
        · exact hall j hlt hj2
      · intro hall j hj1 hj2
        exact hall j (by omega) hj2
    · rw [instantAt_le_iff] at hg
      constructor
      · intro _ j hj1 hj2
        omega
      · intro _
        rfl

theorem countGo_le (asc : ℚ → ℚ) (target start : ℚ) :
    ∀ fuel k, countGo asc target start fuel k ≤ 864001 - k := by
  intro fuel
  induction fuel with
  | zero => intro k; rw [countGo]; omega
  | succ fuel ih =>
    intro k
    rw [countGo]
    split_ifs with hg hm
    · rw [instantAt_le_iff] at hg
      omega
    · rw [instantAt_le_iff] at hg
      have := ih (k + 1)
      omega
    · omega

theorem countGo_full (asc : ℚ → ℚ) (target start : ℚ) :
    ∀ fuel k, 864001 - k < fuel →
      (∀ j, k ≤ j → j ≤ 864000 → ¬ matchAt asc target start j) →
      countGo asc target start fuel k = 864001 - k := by
  intro fuel
  induction fuel with
  | zero => intro k hf; exact absurd hf (Nat.not_lt_zero _)
  | succ fuel ih =>
    intro k hf hall
    rw [countGo]
    split_ifs with hg hm
    · rw [instantAt_le_iff] at hg
      exact absurd hm (hall k le_rfl hg)
    · rw [instantAt_le_iff] at hg
      rw [ih (k + 1) (by omega) (fun j hj1 hj2 => hall j (by omega) hj2)]
      omega
    · rw [instantAt_le_iff] at hg
      omega

theorem countGo_of_scan_some (asc : ℚ → ℚ) (target start : ℚ) :
    ∀ fuel k j, 864001 - k < fuel → scanGo asc target start fuel k = some j →
      countGo asc target start fuel k = j + 1 - k := by
  intro fuel
  induction fuel with
  | zero => intro k j hf; exact absurd hf (Nat.not_lt_zero _)
  | succ fuel ih =>
    intro k j hf hscan
    have hbounds := (scanGo_some_iff asc target start (fuel + 1) k j hf).mp hscan
    rw [scanGo] at hscan
    rw [countGo]
    split_ifs at hscan ⊢ with hg hm
    · have hkj : k = j := Option.some_injective _ hscan
      omega
    · rw [ih (k + 1) j (by rw [instantAt_le_iff] at hg; omega) hscan]
      omega

theorem scanGo_fuel (asc : ℚ → ℚ) (target start : ℚ) (f1 f2 k : ℕ)
    (h1 : 864001 - k < f1) (h2 : 864001 - k < f2) :
    scanGo asc target start f1 k = scanGo asc target start f2 k := by
  cases he : scanGo asc target start f1 k with
  | none =>
    rw [scanGo_none_iff asc target start f1 k h1] at he
    rw [(scanGo_none_iff asc target start f2 k h2).mpr he]
  | some j =>
    rw [scanGo_some_iff asc target start f1 k j h1] at he
    rw [(scanGo_some_iff asc target start f2 k j h2).mpr he]

/-! ### Helper characterizations of the search -/

theorem find_some_iff (asc : ℚ → ℚ) (y mo d : ℤ) (off target : ℚ) (name : String)
    (mode : SidMode) (hname : SWE_AYANAMAS name = some mode) (dt : PyDateTime) :
    find_exact_ascendant_time asc y mo d off target name = .ok (some dt) ↔
      ∃ k, k ≤ 864000 ∧ matchAt asc target (startJD y mo d off) k ∧
        (∀ i, i < k → ¬ matchAt asc target (startJD y mo d off) i) ∧
        dt = jd_to_datetime (instantAt (startJD y mo d off) k) off := by
  unfold find_exact_ascendant_time
  rw [hname]
  cases hscan : scanGo asc target (startJD y mo d off) 864002 0 with
  | none =>
    rw [scanGo_none_iff asc target _ 864002 0 (by omega)] at hscan
    simp only []
    constructor
    · intro h
      exact absurd h (by simp)
    · rintro ⟨k, hk, hm, _, _⟩
      exact absurd hm (hscan k (Nat.zero_le k) hk)
  | some k =>
    rw [scanGo_some_iff asc target _ 864002 0 k (by omega)] at hscan
    obtain ⟨_, hk864, hkm, hkfirst⟩ := hscan
    simp only []
    constructor
    · intro h
      have hinj : some (jd_to_datetime (instantAt (startJD y mo d off) k) off) = some dt :=
        Except.ok.inj h
      have hdt : dt = jd_to_datetime (instantAt (startJD y mo d off) k) off :=
        (Option.some_injective _ hinj).symm
      exact ⟨k, hk864, hkm, fun i hi => hkfirst i (Nat.zero_le i) hi, hdt⟩
    · rintro ⟨j, hj864, hjm, hjfirst, hdt⟩
      have hjk : j = k := by
        rcases lt_trichotomy j k with h | h | h
        · exact absurd hjm (hkfirst j (Nat.zero_le _) h)
        · exact h
        · exact absurd hkm (hjfirst k h)
      rw [hdt, hjk]

theorem find_none_iff (asc : ℚ → ℚ) (y mo d : ℤ) (off target : ℚ) (name : String)
    (mode : SidMode) (hname : SWE_AYANAMAS name = some mode) :
    find_exact_ascendant_time asc y mo d off target name = .ok none ↔
      ∀ k, k ≤ 864000 → ¬ matchAt asc target (startJD y mo d off) k := by
  unfold find_exact_ascendant_time
  rw [hname]
  cases hscan : scanGo asc target (startJD y mo d off) 864002 0 with
  | none =>
    rw [scanGo_none_iff asc target _ 864002 0 (by omega)] at hscan
    simp only []
    constructor
    · intro _ k hk
      exact hscan k (Nat.zero_le k) hk
    · intro _
      trivial
  | some k =>
    rw [scanGo_some_iff asc target _ 864002 0 k (by omega)] at hscan
    obtain ⟨_, hk864, hkm, _⟩ := hscan
    simp only []
    constructor
    · intro h
      exact absurd h (by simp)
    · intro hall
      exact absurd hkm (hall k hk864)

theorem roundtrip_key (c : CivilTime) (off : ℚ) (hval : ValidCivil c) :
    jd_to_datetime (swe_utc_to_jd (swe_utc_time_zone c off)) off = pyDatetimeOf c := by
  unfold jd_to_datetime
  rw [jdut1_utc_to_jd]
  unfold swe_utc_time_zone
  rw [secondsFromCivil_civilFromSeconds, secondsFromCivil_civilFromSeconds]
  rw [show secondsFromCivil c - off * 3600 - -off * 3600 = secondsFromCivil c from by ring]
  rw [civilFromSeconds_secondsFromCivil c hval]

theorem sign_order_bounds (s : SignName) : 0 ≤ sign_order s ∧ sign_order s ≤ 330 := by
  cases s <;> constructor <;> norm_num [sign_order]

/-- A concrete table satisfying the §3 row bounds, used to witness theorems
that quantify over valid tables (the repository's CSV asset is not under
src, so no specific 249 rows are fixed by the source provided). -/
def kpTableWitness : KPTable :=
  ⟨List.replicate 249 ⟨SignName.aries, 0, 30⟩, by simp⟩

theorem ayanamsa_none (name : String)
    (hname : name ∉ (["Krishnamurti", "Krishnamurti_New", "Lahiri_1940", "Lahiri_VP285",
      "Lahiri_ICRC", "Raman", "Yukteshwar"] : List String)) :
    SWE_AYANAMAS name = none := by
  unfold SWE_AYANAMAS
  split_ifs with h1 h2 h3 h4 h5 h6 h7 <;>
    first
      | rfl
      | (exact absurd (by subst_vars; decide) hname)

/-! ### Claim theorems -/

/-- C1: for every search request (with a recognized ayanamsa), the search
returns a datetime exactly when some scanned instant is within 0.0001 of
the target; the returned value is the Julian-day-to-civil conversion (with
the request's UTC offset) of the first such instant in scan order, and no
earlier instant of the scan satisfies the tolerance. -/
theorem claim_C1 (asc : ℚ → ℚ) (y mo d : ℤ) (off target : ℚ) (name : String)
    (mode : SidMode) (dt : PyDateTime) (hname : SWE_AYANAMAS name = some mode) :
    find_exact_ascendant_time asc y mo d off target name = .ok (some dt) ↔
      ∃ k, k ≤ 864000 ∧ matchAt asc target (startJD y mo d off) k ∧
        (∀ i, i < k → ¬ matchAt asc target (startJD y mo d off) i) ∧
        dt = jd_to_datetime (instantAt (startJD y mo d off) k) off :=
  find_some_iff asc y mo d off target name mode hname dt

theorem claim_C1_witness :
    find_exact_ascendant_time (fun _ => (40 : ℚ)) 2024 2 5 (11/2) 40 "Krishnamurti" =
      .ok (some (jd_to_datetime (instantAt (startJD 2024 2 5 (11/2)) 0) (11/2))) := by
  refine (claim_C1 (fun _ => (40 : ℚ)) 2024 2 5 (11/2) 40 "Krishnamurti"
    SidMode.krishnamurti _ rfl).mpr ⟨0, by omega, ?_, ?_, rfl⟩
  · unfold matchAt TOL
    norm_num
  · intro i hi
    exact absurd hi (Nat.not_lt_zero i)

/-- C2: converting a civil local datetime to a Julian day with an offset,
as the search does (swe_utc_time_zone with offset = utc_offset then
swe_utc_to_jd), and converting back with the same offset, as
jd_to_datetime does (swe_jdut1_to_utc then swe_utc_time_zone with
offset = -tz_offset), reproduces (Y,M,D,h,m,s) to within one second.
Proved for every rational offset; this covers 0, +5.5 and -8.0. -/
theorem claim_C2 (c : CivilTime) (off : ℚ) (dt : PyDateTime)
    (hval : ValidCivil c)
    (hdt : jd_to_datetime (swe_utc_to_jd (swe_utc_time_zone c off)) off = dt) :
    dt.year = c.year ∧ dt.month = c.month ∧ dt.day = c.day ∧
      dt.hour = c.hour ∧ dt.minute = c.minute ∧
      |(dt.second : ℚ) + (dt.microsecond : ℚ) / 1000000 - c.second| < 1 := by
  subst hdt
  rw [roundtrip_key c off hval]
  unfold pyDatetimeOf
  dsimp only
  refine ⟨rfl, rfl, rfl, rfl, rfl, ?_⟩
  have hf1 : ((⌊c.second⌋ : ℤ) : ℚ) ≤ c.second := Int.floor_le c.second
  have hf2 : c.second < ((⌊c.second⌋ : ℤ) : ℚ) + 1 := Int.lt_floor_add_one c.second
  have h3 : ((⌊(c.second - ((⌊c.second⌋ : ℤ) : ℚ)) * 1000000⌋ : ℤ) : ℚ) ≤
      (c.second - ((⌊c.second⌋ : ℤ) : ℚ)) * 1000000 := Int.floor_le _
  have h4 : (c.second - ((⌊c.second⌋ : ℤ) : ℚ)) * 1000000 <
      ((⌊(c.second - ((⌊c.second⌋ : ℤ) : ℚ)) * 1000000⌋ : ℤ) : ℚ) + 1 :=
    Int.lt_floor_add_one _
  rw [abs_lt]
  constructor <;> linarith

theorem claim_C2_witness :
    ((jd_to_datetime (swe_utc_to_jd (swe_utc_time_zone ⟨2024, 2, 5, 9, 5, 0⟩ (11/2)))
        (11/2)).year = 2024 ∧
      (jd_to_datetime (swe_utc_to_jd (swe_utc_time_zone ⟨2024, 2, 5, 9, 5, 0⟩ (11/2)))
        (11/2)).month = 2 ∧
      (jd_to_datetime (swe_utc_to_jd (swe_utc_time_zone ⟨2024, 2, 5, 9, 5, 0⟩ (11/2)))
        (11/2)).day = 5 ∧
      (jd_to_datetime (swe_utc_to_jd (swe_utc_time_zone ⟨2024, 2, 5, 9, 5, 0⟩ (11/2)))
        (11/2)).hour = 9 ∧
      (jd_to_datetime (swe_utc_to_jd (swe_utc_time_zone ⟨2024, 2, 5, 9, 5, 0⟩ (11/2)))
        (11/2)).minute = 5 ∧
      |((jd_to_datetime (swe_utc_to_jd (swe_utc_time_zone ⟨2024, 2, 5, 9, 5, 0⟩ (11/2)))
          (11/2)).second : ℚ) +
        ((jd_to_datetime (swe_utc_to_jd (swe_utc_time_zone ⟨2024, 2, 5, 9, 5, 0⟩ (11/2)))
          (11/2)).microsecond : ℚ) / 1000000 - 0| < 1) :=
  claim_C2 ⟨2024, 2, 5, 9, 5, 0⟩ (11/2) _ (by decide) rfl

/-- C3: the resolver called with any number outside [1,249] (such as 0 or
250) yields the explicit out-of-range message, which is never a
success-shaped value; the search's not-found outcome is the separate value
`Except.ok none` of `find_exact_ascendant_time`. -/
theorem claim_C3 (table : KPTable) (n : ℤ) (h : n < 1 ∨ 249 < n) :
    get_horary_ascendant_degree table n =
      .err "SL Div Nr. out of range. Please provide a number between 1 and 249." ∧
    ∀ dta : HoraryData, get_horary_ascendant_degree table n ≠ .ok dta := by
  have hcond : ¬ (1 ≤ n ∧ n ≤ 249) := by omega
  unfold get_horary_ascendant_degree
  rw [dif_neg hcond]
  exact ⟨rfl, fun dta h2 => HoraryResult.noConfusion h2⟩

theorem claim_C3_witness :
    get_horary_ascendant_degree kpTableWitness 0 =
      .err "SL Div Nr. out of range. Please provide a number between 1 and 249." ∧
    get_horary_ascendant_degree kpTableWitness 250 =
      .err "SL Div Nr. out of range. Please provide a number between 1 and 249." :=
  ⟨(claim_C3 kpTableWitness 0 (Or.inl (by norm_num))).1,
    (claim_C3 kpTableWitness 250 (Or.inr (by norm_num))).1⟩

/-- C4: for every horary number in [1,249] and every division table whose
rows satisfy the §3 bounds, the resolver returns the looked-up row's
sign-start degree (per the fixed 12-entry table, Aries=0 … Pisces=330)
plus its decimal from-angle, and this absolute degree lies in [0,360). -/
theorem claim_C4 (table : KPTable) (ht : ValidTable table) (n : ℤ)
    (h1 : 1 ≤ n) (h2 : n ≤ 249) :
    ∃ dta, get_horary_ascendant_degree table n = .ok dta ∧
      dta.zodiacDegreeLocation = sign_order dta.sign + dta.fromDecDeg ∧
      0 ≤ dta.zodiacDegreeLocation ∧ dta.zodiacDegreeLocation < 360 := by
  unfold get_horary_ascendant_degree
  rw [dif_pos ⟨h1, h2⟩]
  have hlen : (n - 1).toNat < table.val.length := by rw [table.property]; omega
  have hmem := List.get_mem table.val ((n - 1).toNat) hlen
  obtain ⟨hv1, hv2, hv3⟩ := ht _ hmem
  have hs := sign_order_bounds (table.val.get ⟨(n - 1).toNat, hlen⟩).sign
  refine ⟨_, rfl, rfl, ?_, ?_⟩
  · dsimp only
    linarith [hs.1]
  · dsimp only
    have hlt : (table.val.get ⟨(n - 1).toNat, hlen⟩).fromDecDeg < 30 :=
      lt_of_lt_of_le hv2 hv3
    linarith [hs.2]

theorem claim_C4_witness :
    ∃ dta, get_horary_ascendant_degree kpTableWitness 34 = .ok dta ∧
      dta.zodiacDegreeLocation = sign_order dta.sign + dta.fromDecDeg ∧
      0 ≤ dta.zodiacDegreeLocation ∧ dta.zodiacDegreeLocation < 360 :=
  claim_C4 kpTableWitness (by decide) 34 (by norm_num) (by norm_num)

/-- C5: for every ayanamsa name outside the recognized enumeration, the
search fails with the argument-validation error (`swe.set_sid_mode` rejects
the `None` from the dictionary lookup) before any ephemeris computation:
the result is the error for every ascendant function `asc`. -/
theorem claim_C5 (asc : ℚ → ℚ) (y mo d : ℤ) (off target : ℚ) (name : String)
    (hname : name ∉ (["Krishnamurti", "Krishnamurti_New", "Lahiri_1940", "Lahiri_VP285",
      "Lahiri_ICRC", "Raman", "Yukteshwar"] : List String)) :
    find_exact_ascendant_time asc y mo d off target name = .error .invalidSidMode := by
  unfold find_exact_ascendant_time
  rw [ayanamsa_none name hname]

theorem claim_C5_witness :
    find_exact_ascendant_time (fun _ => (0 : ℚ)) 2024 2 5 (11/2) 100 "Fagan_Bradley" =
      .error .invalidSidMode :=
  claim_C5 (fun _ => (0 : ℚ)) 2024 2 5 (11/2) 100 "Fagan_Bradley" (by decide)

/-- C6: when the scan completes the full window with no instant within the
tolerance, the search returns the not-found value `Except.ok none` as a
normal value: it is not an error and is distinct from every successful
matched-datetime result. -/
theorem claim_C6 (asc : ℚ → ℚ) (y mo d : ℤ) (off target : ℚ) (name : String)
    (mode : SidMode) (hname : SWE_AYANAMAS name = some mode)
    (hnm : ∀ k, k ≤ 864000 → ¬ matchAt asc target (startJD y mo d off) k) :
    find_exact_ascendant_time asc y mo d off target name = .ok none ∧
      (∀ dt, find_exact_ascendant_time asc y mo d off target name ≠ .ok (some dt)) ∧
      (∀ e, find_exact_ascendant_time asc y mo d off target name ≠ .error e) := by
  have h := (find_none_iff asc y mo d off target name mode hname).mpr hnm
  refine ⟨h, ?_, ?_⟩
  · intro dt hcontra
    rw [h] at hcontra
    exact Option.noConfusion (Except.ok.inj hcontra)
  · intro e hcontra
    rw [h] at hcontra
    exact Except.noConfusion hcontra

theorem claim_C6_witness :
    find_exact_ascendant_time (fun _ => (0 : ℚ)) 2024 2 5 (11/2) 180 "Krishnamurti" =
      .ok none :=
  (claim_C6 (fun _ => (0 : ℚ)) 2024 2 5 (11/2) 180 "Krishnamurti" SidMode.krishnamurti rfl
    (fun k _ => by
      unfold matchAt TOL
      intro habs
      rw [show (fun _ : ℚ => (0 : ℚ)) (instantAt (startJD 2024 2 5 (11/2)) k) - 180 = -180
        from by norm_num] at habs
      rw [abs_of_nonpos (by norm_num)] at habs
      norm_num at habs)).1

/-- C7 (amended): the scan visits the candidate instants
startJD + k/864000 for k = 0,1,2,…, stepping from startJD to
endJD = startJD + 1 inclusive (left endpoint is instant 0 and the right
endpoint is instant 864000), always terminates, and performs at most
864,001 iterations per call; the figure 864,000 in the claim undercounts
by one because both window endpoints are scanned. -/
theorem claim_C7 (asc : ℚ → ℚ) (target start : ℚ) :
    countGo asc target start 864002 0 ≤ 864001 ∧
      instantAt start 0 = start ∧
      instantAt start 864000 = start + 1 ∧
      (∀ k : ℕ, (instantAt start k ≤ start + 1 ↔ k ≤ 864000)) ∧
      (∀ k : ℕ, instantAt start (k + 1) = instantAt start k + 1 / 864000) := by
  refine ⟨?_, instantAt_zero start, instantAt_end start,
    fun k => instantAt_le_iff start k, fun k => ?_⟩
  · have h := countGo_le asc target start 864002 0
    omega
  · unfold instantAt STEP
    push_cast
    ring

/-- C7 counterexample: on a full scan (an ascendant function never within
tolerance of the target) the loop body executes exactly 864,001 times,
which exceeds the claimed bound of 864,000 iterations. -/
theorem claim_C7_counterexample :
    countGo (fun _ => (0 : ℚ)) 180 0 864002 0 = 864001 ∧
      ¬ countGo (fun _ => (0 : ℚ)) 180 0 864002 0 ≤ 864000 := by
  have hnm : ∀ j : ℕ, 0 ≤ j → j ≤ 864000 → ¬ matchAt (fun _ => (0 : ℚ)) 180 0 j := by
    intro j _ _
    unfold matchAt TOL
    intro habs
    rw [show (fun _ : ℚ => (0 : ℚ)) (instantAt 0 j) - 180 = -180 from by norm_num] at habs
    rw [abs_of_nonpos (by norm_num)] at habs
    norm_num at habs
  have h := countGo_full (fun _ => (0 : ℚ)) 180 0 864002 0 (by omega) hnm
  constructor <;> omega

/-- C8: when the target degree equals the ascendant degree at exactly
startJD, the search matches on the first iteration, at instant startJD
itself: the window's left endpoint is included in the scan. -/
theorem claim_C8 (asc : ℚ → ℚ) (y mo d : ℤ) (off target : ℚ) (name : String)
    (mode : SidMode) (hname : SWE_AYANAMAS name = some mode)
    (hhit : asc (startJD y mo d off) = target) :
    find_exact_ascendant_time asc y mo d off target name =
      .ok (some (jd_to_datetime (startJD y mo d off) off)) := by
  have hm : matchAt asc target (startJD y mo d off) 0 := by
    unfold matchAt
    rw [instantAt_zero, hhit]
    simp only [sub_self, abs_zero]
    unfold TOL
    norm_num
  exact (find_some_iff asc y mo d off target name mode hname
    (jd_to_datetime (startJD y mo d off) off)).mpr
    ⟨0, by omega, hm, fun i hi => absurd hi (Nat.not_lt_zero i), by rw [instantAt_zero]⟩

theorem claim_C8_witness :
    find_exact_ascendant_time (fun _ => (123 : ℚ)) 2024 2 5 (11/2) 123 "Krishnamurti" =
      .ok (some (jd_to_datetime (startJD 2024 2 5 (11/2)) (11/2))) :=
  claim_C8 (fun _ => (123 : ℚ)) 2024 2 5 (11/2) 123 "Krishnamurti"
    SidMode.krishnamurti rfl rfl

/-- C9: the match test is the plain numeric difference with no 360-degree
wraparound: an instant whose ascendant degree differs from the target by at
least 0.0001 as plain numbers is never accepted, even when the circular
angular distance min(|a-t|, 360-|a-t|) is below the tolerance. -/
theorem claim_C9 (asc : ℚ → ℚ) (target start : ℚ) (k : ℕ)
    (h1 : TOL ≤ |asc (instantAt start k) - target|)
    (h2 : min |asc (instantAt start k) - target|
      (360 - |asc (instantAt start k) - target|) < TOL) :
    scanGo asc target start 864002 0 ≠ some k := by
  intro hsome
  rw [scanGo_some_iff asc target start 864002 0 k (by omega)] at hsome
  obtain ⟨_, _, hm, _⟩ := hsome
  unfold matchAt at hm
  linarith

theorem claim_C9_witness :
    scanGo (fun _ => (7199999 / 20000 : ℚ)) 0 0 864002 0 ≠ some 0 := by
  refine claim_C9 (fun _ => (7199999 / 20000 : ℚ)) 0 0 0 ?_ ?_
  · unfold TOL
    rw [show (fun _ : ℚ => (7199999 / 20000 : ℚ)) (instantAt 0 0) - 0 = 7199999 / 20000
      from by norm_num]
    rw [abs_of_nonneg (by norm_num)]
    norm_num
  · unfold TOL
    rw [show (fun _ : ℚ => (7199999 / 20000 : ℚ)) (instantAt 0 0) - 0 = 7199999 / 20000
      from by norm_num]
    rw [abs_of_nonneg (by norm_num)]
    rw [min_def]
    norm_num

/-- C10: whenever the search returns a datetime, there is a witnessed
Julian-day instant t in [startJD, startJD + 1] whose ascendant degree is
within 0.0001 of the target, and the returned datetime is exactly the
Julian-day-to-civil conversion of t with the request's UTC offset. -/
theorem claim_C10 (asc : ℚ → ℚ) (y mo d : ℤ) (off target : ℚ) (name : String)
    (mode : SidMode) (dt : PyDateTime) (hname : SWE_AYANAMAS name = some mode)
    (hres : find_exact_ascendant_time asc y mo d off target name = .ok (some dt)) :
    ∃ t, startJD y mo d off ≤ t ∧ t ≤ startJD y mo d off + 1 ∧
      |asc t - target| < TOL ∧ dt = jd_to_datetime t off := by
  rw [find_some_iff asc y mo d off target name mode hname dt] at hres
  obtain ⟨k, hk, hm, _, hdt⟩ := hres
  refine ⟨instantAt (startJD y mo d off) k, instantAt_ge _ _,
    (instantAt_le_iff _ _).mpr hk, ?_, hdt⟩
  unfold matchAt at hm
  exact hm

theorem claim_C10_witness :
    ∃ t, startJD 2024 2 5 (11/2) ≤ t ∧ t ≤ startJD 2024 2 5 (11/2) + 1 ∧
      |(fun _ => (55 : ℚ)) t - 55| < TOL ∧
      jd_to_datetime (instantAt (startJD 2024 2 5 (11/2)) 0) (11/2) =
        jd_to_datetime t (11/2) :=
  claim_C10 (fun _ => (55 : ℚ)) 2024 2 5 (11/2) 55 "Krishnamurti" SidMode.krishnamurti
    (jd_to_datetime (instantAt (startJD 2024 2 5 (11/2)) 0) (11/2)) rfl
    ((find_some_iff (fun _ => (55 : ℚ)) 2024 2 5 (11/2) 55 "Krishnamurti"
        SidMode.krishnamurti rfl
        (jd_to_datetime (instantAt (startJD 2024 2 5 (11/2)) 0) (11/2))).mpr
      ⟨0, by omega, by unfold matchAt TOL; norm_num,
        fun i hi => absurd hi (Nat.not_lt_zero i), rfl⟩)
